import Mathlib

set_option maxRecDepth 40000

/-!
Verification of the indicator-computation and classification pipeline of the
Stock-Market-Analyzer repository (app/main.py), against its specification.

The embedding models the pandas operations used by the source exactly:

* `Series.diff()` produces an undefined (NaN) first element, modelled as
  `Option ℚ` with `none` for NaN.
* `delta.where(cond, 0)` replaces every element where `cond` is false by `0`;
  a comparison with NaN is false, so the NaN head of `diff` is replaced by `0`.
* `Series.rolling(window=n).mean()` (default `min_periods = n`) is defined at
  index `i` iff `n ≤ i + 1`, and is then the arithmetic mean of elements
  `i-n+1 .. i`.
* float division `g / l` with `l = 0` gives `+inf` when `g > 0` (and `-inf`
  for the negative zero produced by negating `0.0`, which leads to the same
  RSI value `100`) and NaN when `g = 0`; `100 - 100/(1 + rs)` maps `±inf` to
  `100` and propagates NaN.  Finite values are modelled exactly over `ℚ`.

A pandas column is a `List (Option ℚ)` (`none` = NaN); a DataFrame is the
`Frame` structure below; a column the code has not assigned yet is `none`.
-/

/-- Result of `delta.where(delta > 0, 0)` on one element: keep a strictly
positive delta, otherwise (including the NaN head of `diff`) give `0`. -/
def whereGain (d : Option ℚ) : ℚ :=
  match d with
  | some x => if 0 < x then x else 0
  | none => 0

/-- Result of `-delta.where(delta < 0, 0)` on one element: a strictly negative
delta becomes its magnitude, otherwise (including NaN) the value is `0`. -/
def whereLoss (d : Option ℚ) : ℚ :=
  match d with
  | some x => if x < 0 then -x else 0
  | none => 0

/-- Embedding of `data['Close'].diff()`: first element NaN, element `i ≥ 1`
is `close[i] - close[i-1]`. -/
def diffList (closes : List ℚ) : List (Option ℚ) :=
  match closes with
  | [] => []
  | _ :: rest => none :: List.zipWith (fun a b => some (b - a)) closes rest

/-- Value of `xs.rolling(window=n).mean()` at index `i` (for `i` in range):
NaN while fewer than `n` observations exist, else the mean of the last `n`. -/
def rmAt (n : ℕ) (xs : List ℚ) (i : ℕ) : Option ℚ :=
  if n ≤ i + 1 then some ((((xs.take (i + 1)).drop (i + 1 - n)).sum) / (n : ℚ)) else none

/-- Embedding of `xs.rolling(window=n).mean()` for a NaN-free column `xs`. -/
def rollingMean (n : ℕ) (xs : List ℚ) : List (Option ℚ) :=
  (List.range xs.length).map (rmAt n xs)

/-- The gain column of `calculate_rsi`:
`(delta.where(delta > 0, 0))` before the rolling mean. -/
def gainList (closes : List ℚ) : List ℚ :=
  (diffList closes).map whereGain

/-- The loss column of `calculate_rsi`:
`(-delta.where(delta < 0, 0))` before the rolling mean. -/
def lossList (closes : List ℚ) : List ℚ :=
  (diffList closes).map whereLoss

/-- One cell of `100 - (100 / (1 + gain/loss))` under float semantics, for the
reachable values `g ≥ 0`, `l ≥ 0`: `l = 0 < g` gives `rs = inf` hence `100`;
`g = l = 0` gives `rs = NaN` which propagates; otherwise exact arithmetic. -/
def rsiVal (g l : ℚ) : Option ℚ :=
  if l = 0 then (if g = 0 then none else some 100)
  else some (100 - 100 / (1 + g / l))

/-- The RSI column computed by `calculate_rsi` (lines 34-38 of main.py). -/
def rsiChannel (period : ℕ) (closes : List ℚ) : List (Option ℚ) :=
  (List.range closes.length).map (fun i =>
    match (rollingMean period (gainList closes)).getD i none,
          (rollingMean period (lossList closes)).getD i none with
    | some g, some l => rsiVal g l
    | _, _ => none)

/-- The SMA column `data['Close'].rolling(window=w).mean()` of
`calculate_moving_averages`. -/
def smaChannel (w : ℕ) (closes : List ℚ) : List (Option ℚ) :=
  rollingMean w closes

/-- A pandas DataFrame as the pipeline sees it: the raw columns fetched from
the provider plus the three derived columns, each `none` while the
corresponding assignment has not run.  `dates` is the index. -/
structure Frame where
  dates : List ℕ
  OpenC : List ℚ
  High : List ℚ
  Low : List ℚ
  Close : List ℚ
  Volume : List ℚ
  SMA_20 : Option (List (Option ℚ))
  SMA_50 : Option (List (Option ℚ))
  RSI : Option (List (Option ℚ))
  deriving DecidableEq

/-- Embedding of `calculate_moving_averages` (main.py lines 26-30).  The
Python function assigns the two SMA columns into the frame it was passed and
returns that same frame; in this state-passing embedding the returned frame
is also the post-call state of the caller's `data` variable. -/
def calculate_moving_averages (data : Frame) : Frame :=
  { data with
    SMA_20 := some (smaChannel 20 data.Close)
    SMA_50 := some (smaChannel 50 data.Close) }

/-- Embedding of `calculate_rsi` (main.py lines 32-39); same in-place
convention as `calculate_moving_averages`. -/
def calculate_rsi (data : Frame) (period : ℕ) : Frame :=
  { data with RSI := some (rsiChannel period data.Close) }

/-- The Indicator Engine `compute` of the spec: the two calls performed by
`main` (lines 103-104), `calculate_moving_averages` then `calculate_rsi`
with the default period 14. -/
def compute (data : Frame) : Frame :=
  calculate_rsi (calculate_moving_averages data) 14

/-- Trend labels printed by `main` (lines 129-134). -/
inductive Trend where
  | uptrend
  | downtrend
  | mixed
  deriving DecidableEq

/-- Python `a > b` on possibly-NaN floats: any comparison with NaN is false. -/
def nanGT (a b : Option ℚ) : Bool :=
  match a, b with
  | some x, some y => decide (y < x)
  | _, _ => false

/-- Python `a < b` on possibly-NaN floats: any comparison with NaN is false. -/
def nanLT (a b : Option ℚ) : Bool :=
  match a, b with
  | some x, some y => decide (x < y)
  | _, _ => false

/-- The trend classification of `main` (lines 129-134):
`if last_close > sma_20 > sma_50 ... elif last_close < sma_20 < sma_50 ...
else mixed`, where a chained Python comparison `a > b > c` is
`(a > b) and (b > c)` and NaN makes every comparison false. -/
def classifyTrend (last_close sma_20 sma_50 : Option ℚ) : Trend :=
  if nanGT last_close sma_20 && nanGT sma_20 sma_50 then Trend.uptrend
  else if nanLT last_close sma_20 && nanLT sma_20 sma_50 then Trend.downtrend
  else Trend.mixed

/-- Python dict assignment `m[k] = v`: overwrite in place if the key exists
(keeping its position in insertion order), else append. -/
def dictInsert (m : List (String × Frame)) (k : String) (v : Frame) :
    List (String × Frame) :=
  if m.any (fun p => p.1 = k) then
    m.map (fun p => if p.1 = k then (k, v) else p)
  else m ++ [(k, v)]

/-- The batch loop of `main` (lines 92-105): for each ticker, strip it, skip
it when blank, fetch its raw frame (`load_stock_data`, which returns an empty
frame both on "no data" and on a provider exception), skip it when the frame
is empty, otherwise run the indicator pipeline and store the result under the
ticker in the `ticker_data` dict. -/
def processBatch (fetch : String → Frame) :
    List String → List (String × Frame) → List (String × Frame)
  | [], acc => acc
  | t :: rest, acc =>
    let t2 := t.trim
    if t2 = "" then processBatch fetch rest acc
    else if (fetch t2).Close.isEmpty then processBatch fetch rest acc
    else processBatch fetch rest (dictInsert acc t2 (compute (fetch t2)))

/-- The Multi-Series Aggregator: the batch loop started from the empty dict. -/
def aggregate (tickers : List String) (fetch : String → Frame) :
    List (String × Frame) :=
  processBatch fetch tickers []

/-- Reference deltas from spec section 4.1 step 1: position `k` of this list
is `delta[k+1] = close[k+1] - close[k]`; `delta[0]` is undefined and has no
position here. -/
def specDeltas (closes : List ℚ) : List ℚ :=
  List.zipWith (fun a b => b - a) closes closes.tail

/-- Reference `avgGain[i]` from spec section 4.1 steps 2-3: the mean of
`gain[i-period+1 .. i]` where `gain[j] = max(delta[j], 0)`. -/
def specAvgGain (period : ℕ) (closes : List ℚ) (i : ℕ) : ℚ :=
  ((((specDeltas closes).drop (i - period)).take period).map (fun d => max d 0)).sum
    / (period : ℚ)

/-- Reference `avgLoss[i]` from spec section 4.1 steps 2-3: the mean of
`loss[i-period+1 .. i]` where `loss[j] = max(-delta[j], 0)`. -/
def specAvgLoss (period : ℕ) (closes : List ℚ) (i : ℕ) : ℚ :=
  ((((specDeltas closes).drop (i - period)).take period).map (fun d => max (-d) 0)).sum
    / (period : ℚ)

lemma length_rollingMean (n : ℕ) (xs : List ℚ) :
    (rollingMean n xs).length = xs.length := by
  simp [rollingMean]

lemma getD_rollingMean (n : ℕ) (xs : List ℚ) (i : ℕ) (h : i < xs.length) :
    (rollingMean n xs).getD i none = rmAt n xs i := by
  rw [rollingMean, List.getD_eq_getElem?_getD, List.getElem?_map,
    List.getElem?_range h, Option.map_some']
  rfl

lemma length_diffList (closes : List ℚ) : (diffList closes).length = closes.length := by
  cases closes with
  | nil => rfl
  | cons c rest => simp [diffList]

lemma length_gainList (closes : List ℚ) : (gainList closes).length = closes.length := by
  simp [gainList, length_diffList]

lemma length_lossList (closes : List ℚ) : (lossList closes).length = closes.length := by
  simp [lossList, length_diffList]

lemma length_rsiChannel (p : ℕ) (closes : List ℚ) :
    (rsiChannel p closes).length = closes.length := by
  simp [rsiChannel]

lemma length_smaChannel (w : ℕ) (closes : List ℚ) :
    (smaChannel w closes).length = closes.length := by
  simp [smaChannel, length_rollingMean]

lemma getD_rsiChannel (p : ℕ) (closes : List ℚ) (i : ℕ) (h : i < closes.length) :
    (rsiChannel p closes).getD i none =
      match rmAt p (gainList closes) i, rmAt p (lossList closes) i with
      | some g, some l => rsiVal g l
      | _, _ => none := by
  rw [rsiChannel, List.getD_eq_getElem?_getD, List.getElem?_map,
    List.getElem?_range h, Option.map_some']
  rw [Option.getD_some, getD_rollingMean p _ i (by rw [length_gainList]; exact h),
    getD_rollingMean p _ i (by rw [length_lossList]; exact h)]

lemma getD_smaChannel (w : ℕ) (closes : List ℚ) (i : ℕ) (h : i < closes.length) :
    (smaChannel w closes).getD i none = rmAt w closes i := by
  rw [smaChannel, getD_rollingMean w closes i h]

lemma whereGain_some (x : ℚ) : whereGain (some x) = max x 0 := by
  rcases le_or_lt x 0 with h | h
  · simp [whereGain, not_lt.mpr h, max_eq_right h]
  · simp [whereGain, h, max_eq_left h.le]

lemma whereLoss_some (x : ℚ) : whereLoss (some x) = max (-x) 0 := by
  rcases lt_or_le x 0 with h | h
  · simp [whereLoss, h, max_eq_left (by linarith : (0:ℚ) ≤ -x)]
  · simp [whereLoss, not_lt.mpr h, max_eq_right (by linarith : -x ≤ (0:ℚ))]

lemma gainList_cons (c : ℚ) (rest : List ℚ) :
    gainList (c :: rest) = 0 :: (specDeltas (c :: rest)).map (fun d => max d 0) := by
  simp only [gainList, diffList, specDeltas, List.map_cons, List.map_zipWith, List.tail_cons]
  have hfg : (fun a b => whereGain (some (b - a))) = fun (a b : ℚ) => max (b - a) 0 := by
    funext a b
    exact whereGain_some (b - a)
  rw [show whereGain none = 0 from rfl, hfg]

lemma lossList_cons (c : ℚ) (rest : List ℚ) :
    lossList (c :: rest) = 0 :: (specDeltas (c :: rest)).map (fun d => max (-d) 0) := by
  simp only [lossList, diffList, specDeltas, List.map_cons, List.map_zipWith, List.tail_cons]
  have hfg : (fun a b => whereLoss (some (b - a))) = fun (a b : ℚ) => max (-(b - a)) 0 := by
    funext a b
    exact whereLoss_some (b - a)
  rw [show whereLoss none = 0 from rfl, hfg]

lemma gainList_nonneg (closes : List ℚ) : ∀ x ∈ gainList closes, 0 ≤ x := by
  intro x hx
  obtain ⟨d, _, rfl⟩ := List.mem_map.mp hx
  cases d with
  | none => simp [whereGain]
  | some v =>
    rw [whereGain_some]
    exact le_max_right v 0

lemma lossList_nonneg (closes : List ℚ) : ∀ x ∈ lossList closes, 0 ≤ x := by
  intro x hx
  obtain ⟨d, _, rfl⟩ := List.mem_map.mp hx
  cases d with
  | none => simp [whereLoss]
  | some v =>
    rw [whereLoss_some]
    exact le_max_right (-v) 0

lemma rmAt_nonneg (n : ℕ) (xs : List ℚ) (i : ℕ) (q : ℚ)
    (hxs : ∀ x ∈ xs, 0 ≤ x) (h : rmAt n xs i = some q) : 0 ≤ q := by
  rw [rmAt] at h
  split at h
  · rw [Option.some_inj] at h
    subst h
    refine div_nonneg (List.sum_nonneg ?_) (by positivity)
    intro x hx
    exact hxs x (List.take_subset _ _ (List.drop_subset _ _ hx))
  · exact absurd h (by simp)

lemma rsiVal_mem_Icc (g l q : ℚ) (hg : 0 ≤ g) (hl : 0 ≤ l)
    (h : rsiVal g l = some q) : 0 ≤ q ∧ q ≤ 100 := by
  by_cases hlz : l = 0
  · by_cases hgz : g = 0
    · rw [rsiVal, if_pos hlz, if_pos hgz] at h
      exact absurd h (by simp)
    · rw [rsiVal, if_pos hlz, if_neg hgz, Option.some_inj] at h
      subst h
      norm_num
  · rw [rsiVal, if_neg hlz, Option.some_inj] at h
    subst h
    have hlpos : 0 < l := lt_of_le_of_ne hl (Ne.symm hlz)
    have hrs : 0 ≤ g / l := div_nonneg hg hl
    have h1 : (1 : ℚ) ≤ 1 + g / l := by linarith
    have hub : 100 / (1 + g / l) ≤ 100 := div_le_self (by norm_num) h1
    have hlb : 0 < 100 / (1 + g / l) := by positivity
    constructor <;> linarith

lemma exists_cons_of_index (closes : List ℚ) (i : ℕ) (h : i < closes.length) :
    ∃ c rest, closes = c :: rest := by
  cases closes with
  | nil => simp at h
  | cons c rest => exact ⟨c, rest, rfl⟩

lemma gain_window_spec (closes : List ℚ) (i : ℕ) (h14 : 14 ≤ i) (h : i < closes.length) :
    ((gainList closes).take (i + 1)).drop (i + 1 - 14)
      = (((specDeltas closes).drop (i - 14)).take 14).map (fun d => max d 0) := by
  obtain ⟨c, rest, rfl⟩ := exists_cons_of_index closes i h
  rw [gainList_cons]
  have h1 : i + 1 - 14 = (i - 14) + 1 := by omega
  rw [List.take_succ_cons, h1, List.drop_succ_cons, List.drop_take]
  have h2 : i - (i - 14) = 14 := by omega
  rw [h2, List.map_take, List.map_drop]

lemma loss_window_spec (closes : List ℚ) (i : ℕ) (h14 : 14 ≤ i) (h : i < closes.length) :
    ((lossList closes).take (i + 1)).drop (i + 1 - 14)
      = (((specDeltas closes).drop (i - 14)).take 14).map (fun d => max (-d) 0) := by
  obtain ⟨c, rest, rfl⟩ := exists_cons_of_index closes i h
  rw [lossList_cons]
  have h1 : i + 1 - 14 = (i - 14) + 1 := by omega
  rw [List.take_succ_cons, h1, List.drop_succ_cons, List.drop_take]
  have h2 : i - (i - 14) = 14 := by omega
  rw [h2, List.map_take, List.map_drop]

lemma gain_window_at_13 (closes : List ℚ) (h : 13 < closes.length) :
    ((gainList closes).take (13 + 1)).drop (13 + 1 - 14)
      = 0 :: ((specDeltas closes).take 13).map (fun d => max d 0) := by
  obtain ⟨c, rest, rfl⟩ := exists_cons_of_index closes 13 h
  rw [gainList_cons]
  norm_num

lemma loss_window_at_13 (closes : List ℚ) (h : 13 < closes.length) :
    ((lossList closes).take (13 + 1)).drop (13 + 1 - 14)
      = 0 :: ((specDeltas closes).take 13).map (fun d => max (-d) 0) := by
  obtain ⟨c, rest, rfl⟩ := exists_cons_of_index closes 13 h
  rw [lossList_cons]
  norm_num

lemma countP_range_window (n L : ℕ) :
    (List.range L).countP (fun i => decide (n ≤ i + 1)) = L - (n - 1) := by
  induction L with
  | zero => simp
  | succ L ih =>
    rw [List.range_succ, List.countP_append, ih]
    by_cases hn : n ≤ L + 1
    · simp [List.countP_cons, hn]
      omega
    · simp [List.countP_cons, hn]
      omega

lemma countP_isSome_rollingMean (n : ℕ) (xs : List ℚ) :
    (rollingMean n xs).countP (fun o => o.isSome) = xs.length - (n - 1) := by
  rw [rollingMean, List.countP_map]
  have hfun : ((fun o => Option.isSome o) ∘ rmAt n xs) = fun i => decide (n ≤ i + 1) := by
    funext i
    by_cases hc : n ≤ i + 1
    · simp [rmAt, hc]
    · simp [rmAt, hc]
  rw [hfun, countP_range_window]

lemma rmAt_of_lt (n : ℕ) (xs : List ℚ) (i : ℕ) (h : i + 1 < n) : rmAt n xs i = none := by
  rw [rmAt, if_neg (by omega)]

lemma rmAt_of_le (n : ℕ) (xs : List ℚ) (i : ℕ) (h : n ≤ i + 1) :
    rmAt n xs i = some ((((xs.take (i + 1)).drop (i + 1 - n)).sum) / (n : ℚ)) := by
  rw [rmAt, if_pos h]

/-- Fourteen alternating closes, a concrete probe input. -/
def exAlt : List ℚ := [1, 2, 1, 2, 1, 2, 1, 2, 1, 2, 1, 2, 1, 2]

/-- Fifteen strictly increasing closes, a concrete probe input. -/
def exUp : List ℚ := [1, 2, 3, 4, 5, 6, 7, 8, 9, 10, 11, 12, 13, 14, 15]

/-- Fifteen constant closes, a concrete probe input. -/
def exFlat : List ℚ := List.replicate 15 1

/-- Twenty-one constant closes, a concrete probe input. -/
def exFives : List ℚ := List.replicate 21 5

/-- C1 counterexample: on a 14-row series the RSI cell at index 13 (which is
strictly below the period 14) is already defined, because the NaN head of
`diff` is coerced to gain 0 / loss 0 by `where` and counted as a full
observation by the rolling mean; the claim says every index below 14 is
undefined. -/
theorem rsi_defined_at_index_13 :
    (rsiChannel 14 exAlt).getD 13 none = some (700 / 13) := by
  with_unfolding_all decide

/-- C1 (amended): the RSI column is undefined strictly below index 13; at
index 13 it is already defined (whenever some window delta is nonzero) with
the NaN delta counted as a zero gain and a zero loss but the divisor still
14; from index 14 on it agrees with the reference formula of spec section 4.1
whenever `avgLoss ≠ 0`, equals 100 when `avgLoss = 0 ≠ avgGain`, and is
undefined (NaN from `0/0`) when every delta in the window is zero. -/
theorem rsi_boundary_and_formula (closes : List ℚ) (i : ℕ) (hi : i < closes.length) :
    (i < 13 → (rsiChannel 14 closes).getD i none = none)
    ∧ (i = 13 → (rsiChannel 14 closes).getD i none
        = rsiVal ((((specDeltas closes).take 13).map (fun d => max d 0)).sum / 14)
            ((((specDeltas closes).take 13).map (fun d => max (-d) 0)).sum / 14))
    ∧ (14 ≤ i → (rsiChannel 14 closes).getD i none
        = (if specAvgLoss 14 closes i = 0 then
            (if specAvgGain 14 closes i = 0 then none else some 100)
          else some (100 - 100 / (1 + specAvgGain 14 closes i / specAvgLoss 14 closes i)))) := by
  refine ⟨?_, ?_, ?_⟩
  · intro h13
    rw [getD_rsiChannel 14 closes i hi, rmAt_of_lt 14 _ i (by omega),
      rmAt_of_lt 14 _ i (by omega)]
  · intro h13
    subst h13
    rw [getD_rsiChannel 14 closes 13 hi, rmAt_of_le 14 _ 13 (by omega),
      rmAt_of_le 14 _ 13 (by omega), gain_window_at_13 closes hi,
      loss_window_at_13 closes hi]
    show rsiVal _ _ = _
    rw [List.sum_cons, List.sum_cons, zero_add, zero_add]
    norm_num
  · intro h14
    rw [getD_rsiChannel 14 closes i hi, rmAt_of_le 14 _ i (by omega),
      rmAt_of_le 14 _ i (by omega), gain_window_spec closes i h14 hi,
      loss_window_spec closes i h14 hi]
    show rsiVal _ _ = _
    rw [specAvgGain, specAvgLoss, rsiVal]

/-- Witness for `rsi_boundary_and_formula` at concrete inputs: index 5 of a
15-row series is undefined, and index 14 follows the reference formula. -/
theorem rsi_boundary_and_formula_witness :
    (rsiChannel 14 exUp).getD 5 none = none
    ∧ (rsiChannel 14 exUp).getD 14 none
        = (if specAvgLoss 14 exUp 14 = 0 then
            (if specAvgGain 14 exUp 14 = 0 then none else some 100)
          else some (100 - 100 / (1 + specAvgGain 14 exUp 14 / specAvgLoss 14 exUp 14))) :=
  ⟨(rsi_boundary_and_formula exUp 5 (by with_unfolding_all decide)).1 (by omega),
   (rsi_boundary_and_formula exUp 14 (by with_unfolding_all decide)).2.2 (by omega)⟩

/-- C2 counterexample: at row 14 of a constant 15-row series every delta in
the window is `≥ 0`, so `avgLoss = 0` (and `avgGain = 0`), yet the computed
RSI cell is undefined (NaN from the float division `0/0`), not the value 100
the claim requires. -/
theorem rsi_flat_window_undefined :
    (rollingMean 14 (lossList exFlat)).getD 14 none = some 0
    ∧ (rollingMean 14 (gainList exFlat)).getD 14 none = some 0
    ∧ (rsiChannel 14 exFlat).getD 14 none = none := by
  refine ⟨?_, ?_, ?_⟩ <;> with_unfolding_all decide

/-- C2 (amended): at any row where the rolling means are defined with
`avgLoss = 0` and `avgGain ≠ 0`, the RSI cell is defined and equals exactly
100 (the division by zero becomes `+inf` internally and never surfaces as an
error); only the degenerate all-flat window (`avgGain = 0` as well) yields an
undefined NaN cell instead. -/
theorem rsi_no_loss_equals_100 (closes : List ℚ) (i : ℕ) (g : ℚ)
    (hg : (rollingMean 14 (gainList closes)).getD i none = some g)
    (hl : (rollingMean 14 (lossList closes)).getD i none = some 0)
    (hgz : g ≠ 0) :
    (rsiChannel 14 closes).getD i none = some 100 := by
  have hi : i < closes.length := by
    by_contra hge
    rw [List.getD_eq_getElem?_getD,
      List.getElem?_eq_none (by rw [length_rollingMean, length_gainList]; omega)] at hg
    simp at hg
  rw [getD_rollingMean _ _ _ (by rw [length_gainList]; exact hi)] at hg
  rw [getD_rollingMean _ _ _ (by rw [length_lossList]; exact hi)] at hl
  rw [getD_rsiChannel 14 closes i hi, hg, hl]
  show rsiVal g 0 = some 100
  rw [rsiVal, if_pos rfl, if_neg hgz]

/-- Witness for `rsi_no_loss_equals_100`: on a strictly increasing 15-row
series, row 14 has `avgGain = 1`, `avgLoss = 0`, and RSI exactly 100. -/
theorem rsi_no_loss_equals_100_witness :
    (rsiChannel 14 exUp).getD 14 none = some 100 :=
  rsi_no_loss_equals_100 exUp 14 1 (by with_unfolding_all decide)
    (by with_unfolding_all decide) (by norm_num)

/-- C6: whenever an RSI cell is defined, its value lies in [0, 100]. -/
theorem rsi_range_0_100 (closes : List ℚ) (i : ℕ) (q : ℚ)
    (h : (rsiChannel 14 closes).getD i none = some q) : 0 ≤ q ∧ q ≤ 100 := by
  have hi : i < closes.length := by
    by_contra hge
    rw [List.getD_eq_getElem?_getD,
      List.getElem?_eq_none (by rw [length_rsiChannel]; omega)] at h
    simp at h
  rw [getD_rsiChannel 14 closes i hi] at h
  cases hg : rmAt 14 (gainList closes) i with
  | none =>
    rw [hg] at h
    cases hl : rmAt 14 (lossList closes) i <;> rw [hl] at h <;> simp at h
  | some g =>
    cases hl : rmAt 14 (lossList closes) i with
    | none =>
      rw [hg, hl] at h
      simp at h
    | some l =>
      rw [hg, hl] at h
      exact rsiVal_mem_Icc g l q
        (rmAt_nonneg 14 _ i g (gainList_nonneg closes) hg)
        (rmAt_nonneg 14 _ i l (lossList_nonneg closes) hl) h

/-- Witness for `rsi_range_0_100`: the defined cell at index 13 of the
alternating series carries the value 700/13, which lies in [0, 100]. -/
theorem rsi_range_0_100_witness :
    (rsiChannel 14 exAlt).getD 13 none = some (700 / 13)
    ∧ (0 ≤ (700 / 13 : ℚ) ∧ (700 / 13 : ℚ) ≤ 100) :=
  ⟨by with_unfolding_all decide,
   rsi_range_0_100 exAlt 13 (700 / 13) (by with_unfolding_all decide)⟩

/-- C3: an SMA cell is defined iff at least `w` closes have been seen; when
defined it is the mean of the last `w` closes, and the number of defined
cells is `L - (w - 1)` (truncated subtraction: 0 for series shorter than the
window, `L - 19` for `w = 20`). -/
theorem sma_window_characterization (w : ℕ) (closes : List ℚ) :
    (∀ i, i < closes.length →
      (w - 1 ≤ i →
        (smaChannel w closes).getD i none
          = some ((((closes.drop (i + 1 - w)).take w).sum) / (w : ℚ)))
      ∧ (i < w - 1 → (smaChannel w closes).getD i none = none))
    ∧ (smaChannel w closes).countP (fun o => o.isSome) = closes.length - (w - 1) := by
  constructor
  · intro i hi
    constructor
    · intro hwi
      rw [getD_smaChannel w closes i hi, rmAt_of_le w closes i (by omega)]
      have he : (closes.take (i + 1)).drop (i + 1 - w)
          = (closes.drop (i + 1 - w)).take w := by
        rw [List.drop_take]
        congr 1
        omega
      rw [he]
    · intro hlt
      rw [getD_smaChannel w closes i hi, rmAt_of_lt w closes i (by omega)]
  · rw [smaChannel, countP_isSome_rollingMean]

/-- Witness for `sma_window_characterization`: on 21 constant closes, cell 19
is the mean 5, cell 5 is undefined, and exactly 2 cells are defined. -/
theorem sma_window_characterization_witness :
    (smaChannel 20 exFives).getD 19 none = some 5
    ∧ (smaChannel 20 exFives).getD 5 none = none
    ∧ (smaChannel 20 exFives).countP (fun o => o.isSome) = 2 := by
  refine ⟨?_, ?_, ?_⟩
  · rw [((sma_window_characterization 20 exFives).1 19 (by with_unfolding_all decide)).1
      (by omega)]
    with_unfolding_all decide
  · exact ((sma_window_characterization 20 exFives).1 5 (by with_unfolding_all decide)).2
      (by omega)
  · rw [(sma_window_characterization 20 exFives).2]
    decide

/-- C4: on a latest row where close and both SMAs are defined real values,
the classification is Uptrend exactly when `close > sma20 > sma50` strictly,
Downtrend exactly when `close < sma20 < sma50` strictly, and Mixed exactly
when neither strict chain holds. -/
theorem trend_classification_rules (c s20 s50 : ℚ) :
    (classifyTrend (some c) (some s20) (some s50) = Trend.uptrend ↔ s20 < c ∧ s50 < s20)
    ∧ (classifyTrend (some c) (some s20) (some s50) = Trend.downtrend ↔ c < s20 ∧ s20 < s50)
    ∧ (classifyTrend (some c) (some s20) (some s50) = Trend.mixed ↔
        ¬(s20 < c ∧ s50 < s20) ∧ ¬(c < s20 ∧ s20 < s50)) := by
  by_cases h1 : s20 < c <;> by_cases h2 : s50 < s20 <;> by_cases h3 : c < s20 <;>
    by_cases h4 : s20 < s50 <;>
    simp [classifyTrend, nanGT, nanLT, h1, h2, h3, h4]
  all_goals linarith

/-- Witness for `trend_classification_rules` at the spec's boundary triples:
(110, 100, 90) is Uptrend, (90, 100, 110) is Downtrend, and (100, 100, 90) is
Mixed because the double inequality must be strict. -/
theorem trend_classification_rules_witness :
    classifyTrend (some 110) (some 100) (some 90) = Trend.uptrend
    ∧ classifyTrend (some 90) (some 100) (some 110) = Trend.downtrend
    ∧ classifyTrend (some 100) (some 100) (some 90) = Trend.mixed :=
  ⟨(trend_classification_rules 110 100 90).1.mpr (by norm_num),
   (trend_classification_rules 90 100 110).2.1.mpr (by norm_num),
   (trend_classification_rules 100 100 90).2.2.mpr (by norm_num)⟩

/-- C5 counterexample: with `sma50` undefined (NaN) and the price above the
20-day SMA, the code does not report "insufficient data" - there is no such
report anywhere in `main` - it silently falls through to the Mixed trend
label, because every comparison against NaN is false. -/
theorem trend_undefined_sma_silently_mixed :
    classifyTrend (some 110) (some 100) none = Trend.mixed := by
  with_unfolding_all decide

/-- C5 (amended): whenever `sma20` or `sma50` is undefined on the latest row,
the classifier silently reports the Mixed label (the else-branch "mixed
signals" message); no "insufficient data" outcome exists in the code. -/
theorem trend_undefined_sma_defaults_mixed (c s20 s50 : Option ℚ)
    (h : s20 = none ∨ s50 = none) : classifyTrend c s20 s50 = Trend.mixed := by
  rcases h with h | h
  · subst h
    cases c <;> cases s50 <;> simp [classifyTrend, nanGT, nanLT]
  · subst h
    cases c <;> cases s20 <;> simp [classifyTrend, nanGT, nanLT]

/-- Witness for `trend_undefined_sma_defaults_mixed` at a concrete row. -/
theorem trend_undefined_sma_defaults_mixed_witness :
    classifyTrend (some 90) (some 100) none = Trend.mixed :=
  trend_undefined_sma_defaults_mixed (some 90) (some 100) none (Or.inr rfl)

/-- C8: for every input frame, short or long, the pipeline computes totally:
the index and every raw price column are unchanged, each derived column has
exactly the input length (aligned cell-by-cell to the same dates, nothing
reordered or dropped), and for a series shorter than a window that window's
column is all-NaN rather than an error. -/
theorem compute_length_alignment (data : Frame) :
    (compute data).dates = data.dates
    ∧ (compute data).Close = data.Close
    ∧ (compute data).OpenC = data.OpenC
    ∧ (compute data).High = data.High
    ∧ (compute data).Low = data.Low
    ∧ (compute data).Volume = data.Volume
    ∧ ((compute data).SMA_20.getD []).length = data.Close.length
    ∧ ((compute data).SMA_50.getD []).length = data.Close.length
    ∧ ((compute data).RSI.getD []).length = data.Close.length
    ∧ (data.Close.length < 50 →
        (compute data).SMA_50 = some (List.replicate data.Close.length none)) := by
  refine ⟨rfl, rfl, rfl, rfl, rfl, rfl, ?_, ?_, ?_, ?_⟩
  · show (smaChannel 20 data.Close).length = data.Close.length
    exact length_smaChannel 20 data.Close
  · show (smaChannel 50 data.Close).length = data.Close.length
    exact length_smaChannel 50 data.Close
  · show (rsiChannel 14 data.Close).length = data.Close.length
    exact length_rsiChannel 14 data.Close
  · intro hshort
    show some (smaChannel 50 data.Close) = _
    congr 1
    rw [List.eq_replicate_iff]
    refine ⟨length_smaChannel 50 data.Close, ?_⟩
    intro b hb
    obtain ⟨i, hir, rfl⟩ := List.mem_map.mp hb
    rw [List.mem_range] at hir
    exact rmAt_of_lt 50 data.Close i (by omega)

/-- Witness for `compute_length_alignment` on a concrete 1-row frame: the raw
columns survive and the 50-day SMA column is a single NaN cell. -/
theorem compute_length_alignment_witness :
    (compute (Frame.mk [0] [1] [1] [1] [1] [9] none none none)).Close = [1]
    ∧ (compute (Frame.mk [0] [1] [1] [1] [1] [9] none none none)).SMA_50
        = some (List.replicate 1 none) := by
  refine ⟨(compute_length_alignment _).2.1, ?_⟩
  have h := (compute_length_alignment (Frame.mk [0] [1] [1] [1] [1] [9] none none none)).2.2.2.2.2.2.2.2.2
  rw [h (by decide)]
  rfl

/-- C9 counterexample: `compute` does not leave the input frame untouched.
The returned frame is, by Python aliasing, the caller's own frame after the
call (`calculate_moving_averages` assigns columns into the frame it was
passed and returns it), and it differs from the frame before the call: the
derived columns went from absent to present. -/
theorem compute_mutates_input_example :
    compute (Frame.mk [0] [1] [1] [1] [1] [9] none none none)
      ≠ Frame.mk [0] [1] [1] [1] [1] [9] none none none := by
  intro h
  have h20 := congrArg Frame.SMA_20 h
  simp [compute, calculate_rsi, calculate_moving_averages] at h20

/-- C9 (amended): `compute` augments the frame in place and returns that same
frame: the index and all raw price columns inside it are preserved, but the
frame as a whole is not left unchanged - on any frame whose SMA_20 column is
absent beforehand, the post-call frame differs from the pre-call frame. -/
theorem compute_preserves_prices_not_frame (data : Frame) (h : data.SMA_20 = none) :
    (compute data).dates = data.dates
    ∧ (compute data).OpenC = data.OpenC
    ∧ (compute data).High = data.High
    ∧ (compute data).Low = data.Low
    ∧ (compute data).Close = data.Close
    ∧ (compute data).Volume = data.Volume
    ∧ compute data ≠ data := by
  refine ⟨rfl, rfl, rfl, rfl, rfl, rfl, ?_⟩
  intro he
  have h20 := congrArg Frame.SMA_20 he
  rw [h] at h20
  simp [compute, calculate_rsi, calculate_moving_averages] at h20

/-- Witness for `compute_preserves_prices_not_frame` on a concrete frame. -/
theorem compute_preserves_prices_not_frame_witness :
    (compute (Frame.mk [0] [1] [1] [1] [1] [9] none none none)).Close = [1]
    ∧ compute (Frame.mk [0] [1] [1] [1] [1] [9] none none none)
        ≠ Frame.mk [0] [1] [1] [1] [1] [9] none none none :=
  ⟨(compute_preserves_prices_not_frame _ rfl).2.2.2.2.1,
   (compute_preserves_prices_not_frame _ rfl).2.2.2.2.2.2⟩

/-- C10: the pipeline is deterministic and idempotent: its derived columns
depend only on the Close column (two frames agreeing on the raw columns get
identical outputs, whatever stale derived columns they carried), and running
`compute` a second time over an already-augmented frame reproduces exactly
the same frame (the columns are recomputed from the unchanged Close data and
overwritten with the same values). -/
theorem compute_deterministic_idempotent (f g : Frame)
    (hdates : f.dates = g.dates) (hopen : f.OpenC = g.OpenC) (hhigh : f.High = g.High)
    (hlow : f.Low = g.Low) (hclose : f.Close = g.Close) (hvol : f.Volume = g.Volume) :
    compute f = compute g ∧ compute (compute f) = compute f := by
  constructor
  · have hf : compute f = Frame.mk f.dates f.OpenC f.High f.Low f.Close f.Volume
        (some (smaChannel 20 f.Close)) (some (smaChannel 50 f.Close))
        (some (rsiChannel 14 f.Close)) := rfl
    have hg : compute g = Frame.mk g.dates g.OpenC g.High g.Low g.Close g.Volume
        (some (smaChannel 20 g.Close)) (some (smaChannel 50 g.Close))
        (some (rsiChannel 14 g.Close)) := rfl
    rw [hf, hg, hdates, hopen, hhigh, hlow, hclose, hvol]
  · rfl

/-- Witness for `compute_deterministic_idempotent`: two frames with the same
raw columns but different stale derived columns compute to the same result,
and recomputation is stable. -/
theorem compute_deterministic_idempotent_witness :
    compute (Frame.mk [0] [1] [1] [1] [1] [9] (some [some 3]) none none)
      = compute (Frame.mk [0] [1] [1] [1] [1] [9] none (some []) (some [none]))
    ∧ compute (compute (Frame.mk [0] [1] [1] [1] [1] [9] (some [some 3]) none none))
      = compute (Frame.mk [0] [1] [1] [1] [1] [9] (some [some 3]) none none) :=
  compute_deterministic_idempotent _ _ rfl rfl rfl rfl rfl rfl

lemma dictInsert_of_not_mem (m : List (String × Frame)) (k : String) (v : Frame)
    (h : ∀ p ∈ m, p.1 ≠ k) : dictInsert m k v = m ++ [(k, v)] := by
  rw [dictInsert, if_neg]
  simp only [List.any_eq_true, not_exists, not_and]
  intro p hp
  simp [h p hp]

lemma processBatch_clean (fetch : String → Frame) (ts : List String)
    (acc : List (String × Frame))
    (hclean : ∀ t ∈ ts, t.trim = t ∧ t ≠ "")
    (hnodup : ts.Nodup)
    (hfresh : ∀ t ∈ ts, ∀ p ∈ acc, p.1 ≠ t) :
    processBatch fetch ts acc
      = acc ++ (ts.filter (fun t => !(fetch t).Close.isEmpty)).map
          (fun t => (t, compute (fetch t))) := by
  induction ts generalizing acc with
  | nil => simp [processBatch]
  | cons t rest ih =>
    obtain ⟨htrim, hne⟩ := hclean t (List.mem_cons_self t rest)
    have hrest : ∀ u ∈ rest, u.trim = u ∧ u ≠ "" :=
      fun u hu => hclean u (List.mem_cons_of_mem t hu)
    have hndrest : rest.Nodup := (List.nodup_cons.mp hnodup).2
    have htnotin : t ∉ rest := (List.nodup_cons.mp hnodup).1
    simp only [processBatch, htrim]
    rw [if_neg hne]
    by_cases hempty : (fetch t).Close.isEmpty
    · rw [if_pos hempty,
        ih acc hrest hndrest (fun u hu p hp => hfresh u (List.mem_cons_of_mem t hu) p hp)]
      rw [List.filter_cons_of_neg (by simp [hempty])]
    · rw [if_neg hempty,
        dictInsert_of_not_mem acc t _ (fun p hp => hfresh t (List.mem_cons_self t rest) p hp)]
      rw [ih (acc ++ [(t, compute (fetch t))]) hrest hndrest ?_]
      · rw [List.filter_cons_of_pos (by simp [hempty]), List.map_cons, List.append_assoc]
        rfl
      · intro u hu p hp
        rcases List.mem_append.mp hp with hpa | hpt
        · exact hfresh u (List.mem_cons_of_mem t hu) p hpa
        · have hpt2 : p = (t, compute (fetch t)) := by simpa using hpt
          rw [hpt2]
          intro hcontra
          have ht : t = u := hcontra
          exact htnotin (by rw [ht]; exact hu)

/-- C7: for a batch of distinct, already-stripped, non-blank tickers, the
aggregation dict contains exactly the tickers whose raw series is non-empty,
in batch order, each mapped to the indicator pipeline's output on its raw
frame; empty-series tickers are skipped without aborting the rest (the loop
is total: `load_stock_data` turns provider failure into an empty frame, so
no exception escapes the batch). -/
theorem aggregate_skips_empty (tickers : List String) (fetch : String → Frame)
    (hclean : ∀ t ∈ tickers, t.trim = t ∧ t ≠ "")
    (hnodup : tickers.Nodup) :
    (aggregate tickers fetch).map Prod.fst
        = tickers.filter (fun t => !(fetch t).Close.isEmpty)
    ∧ ∀ p ∈ aggregate tickers fetch, p.2 = compute (fetch p.1) := by
  have h := processBatch_clean fetch tickers [] hclean hnodup (by simp)
  rw [aggregate, h]
  constructor
  · rw [List.nil_append, List.map_map]
    have hcomp : (Prod.fst ∘ fun t => (t, compute (fetch t))) = id := rfl
    rw [hcomp, List.map_id]
  · intro p hp
    simp only [List.nil_append, List.mem_map] at hp
    obtain ⟨u, _, rfl⟩ := hp
    rfl

/-- A concrete provider for the spec's aggregator scenario: "AAPL" has a
15-row series, every other ticker (in particular "ZZZZ") returns the empty
frame. -/
def fetchEx (t : String) : Frame :=
  if t = "AAPL" then Frame.mk (List.range 15) exUp exUp exUp exUp exUp none none none
  else Frame.mk [] [] [] [] [] [] none none none

/-- Witness for `aggregate_skips_empty`: the batch ["AAPL", "ZZZZ"] where
"ZZZZ" returns an empty series produces a ComparisonSet containing exactly
"AAPL". -/
theorem aggregate_skips_empty_witness :
    (aggregate ["AAPL", "ZZZZ"] fetchEx).map Prod.fst = ["AAPL"]
    ∧ ∀ p ∈ aggregate ["AAPL", "ZZZZ"] fetchEx, p.2 = compute (fetchEx p.1) := by
  have h := aggregate_skips_empty ["AAPL", "ZZZZ"] fetchEx
    (by with_unfolding_all decide) (by decide)
  refine ⟨h.1.trans ?_, h.2⟩
  with_unfolding_all decide
